import Mathlib

/- Verification development for the mdb-bedrock-action-groups knowledge base:
   a shallow embedding of the ingestion pipeline (MongoDBKnowledgeBase.ts,
   MetadataLoader.ts) and of the hybrid retrieval engine
   (MongoDBHybridRetriever.ts, retrievalHandler.ts), with theorems about the
   ingestion state machine and the reciprocal-rank-fusion query. -/

namespace MdbBedrock

/-- Does the second character list begin with the first one? Helper for the
JavaScript-style string predicates below. -/
def beginsWith : List Char → List Char → Bool
  | [], _ => true
  | _ :: _, [] => false
  | a :: as, b :: bs => a == b && beginsWith as bs

/-- Model of JavaScript `String.prototype.startsWith(p)`. -/
def strStartsWith (s p : String) : Bool := beginsWith p.data s.data

/-- Model of JavaScript `String.prototype.endsWith(p)`. -/
def strEndsWith (s p : String) : Bool := beginsWith p.data.reverse s.data.reverse

/-- Numeric value of a hexadecimal digit character (0 for non-digits). -/
def hexDigitVal (c : Char) : Nat :=
  if '0' ≤ c && c ≤ '9' then c.toNat - '0'.toNat
  else if 'a' ≤ c && c ≤ 'f' then c.toNat - 'a'.toNat + 10
  else if 'A' ≤ c && c ≤ 'F' then c.toNat - 'A'.toNat + 10
  else 0

/-- Is the character a hexadecimal digit? -/
def isHexDigitChar (c : Char) : Bool :=
  ('0' ≤ c && c ≤ '9') || ('a' ≤ c && c ≤ 'f') || ('A' ≤ c && c ≤ 'F')

/-- Percent-decoding of a character list, modelling `decodeURIComponent` at the
single-byte level (sufficient for the ASCII object keys this development
exercises; multi-byte UTF-8 sequences are not reconstructed). -/
def percentDecodeChars : List Char → List Char
  | [] => []
  | '%' :: h :: l :: rest =>
    if isHexDigitChar h && isHexDigitChar l then
      Char.ofNat (16 * hexDigitVal h + hexDigitVal l) :: percentDecodeChars rest
    else
      '%' :: percentDecodeChars (h :: l :: rest)
  | c :: rest => c :: percentDecodeChars rest

/-- Model of `cleanS3Key` (MongoDBKnowledgeBase.ts line 303):
`decodeURIComponent(s3Key.replace(/\+/g, " "))` — replace every `+` by a space,
then percent-decode. -/
def cleanS3Key (s3Key : String) : String :=
  String.mk (percentDecodeChars (s3Key.data.map (fun c => if c == '+' then ' ' else c)))

/-- A flat string-keyed attribute document, used for the `metadata` field of a
chunk and for filter maps. Lookup returns the first binding of a key, matching
BSON/JS object field access. -/
abbrev AttrMap := List (String × String)

/-- A document of the `kbChunks` collection: text, embedding vector and the
`metadata` embedded document (which carries `source`, `eTag` and any
sidecar-merged attributes as flat keys). The driver-assigned `_id` is kept
because the fusion aggregation groups by it. -/
structure ChunkDoc where
  _id : String
  text : String
  embedding : List ℚ
  metadata : AttrMap
deriving DecidableEq, Repr

/-- The chunk's `metadata.source` field. -/
def ChunkDoc.source (c : ChunkDoc) : Option String := c.metadata.lookup "source"

/-- The chunk's `metadata.eTag` field. -/
def ChunkDoc.eTagOf (c : ChunkDoc) : Option String := c.metadata.lookup "eTag"

/-- The `status` field of an inventory entry (`'success' | 'fail' | 'removed'`). -/
inductive IngestStatus
  | success
  | fail
  | removed
deriving DecidableEq, Repr

/-- A document of the `kbInventory` collection (`InventoryEntryDoc` in
MongoDBKnowledgeBase.ts): primary key `_id` is the s3 address. `updatedAt` is
a timestamp, modelled as a natural number supplied by the environment. -/
structure InventoryEntryDoc where
  _id : String
  eTag : String
  updatedAt : Nat
  status : IngestStatus
  error : Option String
deriving DecidableEq, Repr

/-- The backing store's observable state: the two collections the ingestion
pipeline writes. -/
structure KBState where
  kbChunks : List ChunkDoc
  kbInventory : List InventoryEntryDoc
deriving DecidableEq, Repr

/-- Model of `findOneAndReplace({_id: addr}, doc, {upsert})` on the inventory
collection: replace every entry keyed by `addr` with `doc` (the pipeline keeps
at most one); if none exists, append `doc` only when `upsert` is true. -/
def upsertInventory (inv : List InventoryEntryDoc) (addr : String)
    (doc : InventoryEntryDoc) (upsert : Bool) : List InventoryEntryDoc :=
  if inv.any (fun e => decide (e._id = addr)) then
    inv.map (fun e => if e._id = addr then doc else e)
  else if upsert then inv ++ [doc] else inv

/-- The s3 address of an object: `s3://<bucketName>/<objectKey>`. -/
def s3AddressOf (bucketName objectKey : String) : String :=
  "s3://" ++ bucketName ++ "/" ++ objectKey

/-- Model of the stale-chunk `deleteMany` of `ingestObject` (lines 126-131):
remove every chunk whose `metadata.source` equals the address and whose
`metadata.eTag` differs from the new eTag. -/
def staleRemove (addr eTag : String) (chunks : List ChunkDoc) : List ChunkDoc :=
  chunks.filter (fun c => !(decide (c.source = some addr) && !(decide (c.eTagOf = some eTag))))

/-- Outcome of the `insertMany` store write issued by `ingestObject`: either it
succeeds, or it rejects after `inserted` documents were written (the driver
does not roll back a partially applied batch). -/
inductive InsertManyOutcome
  | ok
  | failPartial (inserted : Nat) (msg : String)
deriving DecidableEq, Repr

/-- External collaborators of the ingestion pipeline, as one deterministic
environment:
* `loadEmbed bucket key eTag` — `LoaderFacade.loadAndSplit` followed by
  `VectorGeneratorFacade.generateForDocuments`: the embedded chunk documents
  for the object, or the thrown error's message (segmentation and embedding
  are external black boxes; a throw at either step is an `error`).
* `sidecar bucket metadataObjectKey` — `MetadataLoader.load`: the
  `metadataAttributes` map of the sidecar JSON object, or `none` when the file
  is absent, malformed, or lacks a `metadataAttributes` key.
* `insertOutcome` — how the chunk `insertMany` behaves (store failure
  injection).
* `now` — the wall clock read by `new Date()` for `updatedAt` fields. -/
structure IngestEnv where
  loadEmbed : String → String → String → Except String (List ChunkDoc)
  sidecar : String → String → Option AttrMap
  insertOutcome : InsertManyOutcome
  now : Nat

/-- Leaf-level merge used both by a MongoDB pipeline-update `$addFields` with a
plain document value and by the JavaScript object spread: keys of `b` override
same-named keys of `a` in place, keys of `b` absent from `a` are appended, all
other keys of `a` are preserved. -/
def overrideAppend (a b : AttrMap) : AttrMap :=
  a.map (fun kv => match b.lookup kv.1 with
    | some v => (kv.1, v)
    | none => kv)
  ++ b.filter (fun kv => (a.lookup kv.1).isNone)

/-- Model of the update `[{$addFields: {metadata: m}}]` restricted to the
`metadata` field (ingestMetadata, lines 182-187). In an aggregation-pipeline
update, a plain (operator-free) document value is parsed as a nested-path
specification, so the stage merges `m` into the existing embedded document at
leaf level; the empty document is the exception: `$addFields` then sets the
field to the empty document. -/
def addFieldsDoc (old m : AttrMap) : AttrMap :=
  if m.isEmpty then [] else overrideAppend old m

/-- Model of `stripMetadataSuffix`: `objectKey.replace(/\.metadata\.json$/, "")`
(ingestMetadata, line 169) — drop a trailing `.metadata.json` if present. -/
def stripMetadataSuffix (key : String) : String :=
  if strEndsWith key ".metadata.json" then
    String.mk (key.data.take (key.data.length - ".metadata.json".length))
  else key

/-- Model of `MongoDBKnowledgeBase.ingestMetadata` (lines 165-188): resolve the
target key by stripping the sidecar suffix, load the sidecar's attribute map,
and if present `updateMany` every chunk whose `metadata.source` equals the
target address with `[{$addFields: {metadata: m}}]`. The inventory collection
is never touched. -/
def ingestMetadata (env : IngestEnv) (bucketName objectKey : String) (st : KBState) : KBState :=
  let targetObjectKey := stripMetadataSuffix objectKey
  let metadataObjectKey := targetObjectKey ++ ".metadata.json"
  let s3Address := s3AddressOf bucketName targetObjectKey
  match env.sidecar bucketName metadataObjectKey with
  | none => st
  | some metadata =>
    { st with kbChunks := st.kbChunks.map (fun c =>
        if c.source = some s3Address then { c with metadata := addFieldsDoc c.metadata metadata } else c) }

/-- Model of `MongoDBKnowledgeBase.isIngested` (lines 198-214): a `findOne` on
the inventory for `{_id: address, eTag, status: "success"}` found a document. -/
def isIngested (bucketName objectKey objectEtag : String) (st : KBState) : Bool :=
  st.kbInventory.any (fun e =>
    decide (e._id = s3AddressOf bucketName objectKey ∧ e.eTag = objectEtag ∧ e.status = .success))

/-- Model of `MongoDBKnowledgeBase.markAsIngested` (lines 223-238):
`findOneAndReplace` with `upsert: true` of the success entry. -/
def markAsIngested (env : IngestEnv) (bucketName objectKey objectEtag : String) (st : KBState) : KBState :=
  let s3Address := s3AddressOf bucketName objectKey
  { st with kbInventory :=
      (upsertInventory st.kbInventory s3Address
        ⟨s3Address, objectEtag, env.now, .success, none⟩ true) }

/-- Model of `MongoDBKnowledgeBase.markAsRemoved` (lines 247-261):
`findOneAndReplace` of `{eTag: '0', status: "removed"}` with `upsert: false` —
an entry is replaced only when one already exists. -/
def markAsRemoved (env : IngestEnv) (bucketName objectKey : String) (st : KBState) : KBState :=
  let s3Address := s3AddressOf bucketName objectKey
  { st with kbInventory :=
      (upsertInventory st.kbInventory s3Address
        ⟨s3Address, "0", env.now, .removed, none⟩ false) }

/-- Model of `MongoDBKnowledgeBase.markAsError` (lines 270-294):
`findOneAndReplace` with `upsert: true` of the fail entry; the thrown error's
JSON serialization is abstracted to its message string. -/
def markAsError (env : IngestEnv) (bucketName objectKey objectEtag msg : String) (st : KBState) : KBState :=
  let s3Address := s3AddressOf bucketName objectKey
  { st with kbInventory :=
      (upsertInventory st.kbInventory s3Address
        ⟨s3Address, objectEtag, env.now, .fail, some msg⟩ true) }

/-- Model of `MongoDBKnowledgeBase.removeObject` (lines 142-157): `deleteMany`
of every chunk whose `metadata.source` equals the address. (The source does not
await the returned promise, but the issued deletion still executes; the model
records its final effect.) -/
def removeObject (bucketName objectKey : String) (st : KBState) : KBState :=
  let s3Address := s3AddressOf bucketName objectKey
  { st with kbChunks := st.kbChunks.filter (fun c => !(decide (c.source = some s3Address))) }

/-- Model of `MongoDBKnowledgeBase.ingestObject` (lines 104-134): load and
split the object, embed the chunks, then issue the `insertMany` of the new
chunks followed by the stale `deleteMany` and await both. Failure points:
the loader/embedder throw (`loadEmbed` is an `error`; nothing was written),
the driver rejects an empty batch (the concurrently issued deletion still
executes), or the insert itself fails after a partial write (the deletion,
already issued, still executes). An `error` result carries the message and
the store state left behind. -/
def ingestObject (env : IngestEnv) (bucketName objectKey objectEtag : String) (st : KBState) :
    Except (String × KBState) KBState :=
  let s3Address := s3AddressOf bucketName objectKey
  match env.loadEmbed bucketName objectKey objectEtag with
  | .error msg => .error (msg, st)
  | .ok chunksWithVector =>
    if chunksWithVector.isEmpty then
      .error ("Batch cannot be empty",
        { st with kbChunks := staleRemove s3Address objectEtag st.kbChunks })
    else
      match env.insertOutcome with
      | .ok =>
        .ok { st with kbChunks := staleRemove s3Address objectEtag (st.kbChunks ++ chunksWithVector) }
      | .failPartial n msg =>
        .error (msg,
          { st with kbChunks := staleRemove s3Address objectEtag (st.kbChunks ++ chunksWithVector.take n) })

/-- The created-document branch of `handleEvent` (lines 60-93): skip non-PDF
keys, skip when the idempotency guard finds a current success entry, otherwise
ingest, mark the inventory, and best-effort merge an already-present sidecar;
on any throw, mark the inventory as failed (the catch swallows the error, so
the handler always returns normally). -/
def handleCreatedDocument (env : IngestEnv) (bucketName objectKey objectEtag : String) (st : KBState) : KBState :=
  let isPdf := strEndsWith objectKey ".pdf"
  let ingested := isIngested bucketName objectKey objectEtag st
  if !isPdf then st
  else if ingested then st
  else
    match ingestObject env bucketName objectKey objectEtag st with
    | .ok st1 => ingestMetadata env bucketName objectKey (markAsIngested env bucketName objectKey objectEtag st1)
    | .error (msg, st1) => markAsError env bucketName objectKey objectEtag msg st1

/-- One s3 event record, flattened from the notification structure
(`record.eventName`, `record.s3.bucket.name`, `record.s3.object.key`,
`record.s3.object.eTag`). -/
structure S3EventRecord where
  eventName : String
  bucketName : String
  objectKey : String
  eTag : String
deriving DecidableEq, Repr

/-- Model of `MongoDBKnowledgeBase.handleEvent` (lines 40-94): dispatch one s3
event record — removals, sidecar creations, then document creations; anything
else is a no-op. -/
def handleEvent (env : IngestEnv) (r : S3EventRecord) (st : KBState) : KBState :=
  let bucketName := r.bucketName
  let objectKey := cleanS3Key r.objectKey
  let objectEtag := r.eTag
  let isMetadataFile := strEndsWith objectKey ".metadata.json"
  if strStartsWith r.eventName "ObjectRemoved:" then
    markAsRemoved env bucketName objectKey (removeObject bucketName objectKey st)
  else if strStartsWith r.eventName "ObjectCreated:" && isMetadataFile then
    ingestMetadata env bucketName objectKey st
  else if strStartsWith r.eventName "ObjectCreated:" then
    handleCreatedDocument env bucketName objectKey objectEtag st
  else st

/-- The chunk-store writes issued by the success path of `ingestObject`, in
program order: the `insertMany` of the new chunks (line 121) is created before
the stale `deleteMany` (line 126); both are then awaited together
(`Promise.all`). -/
inductive StoreOp
  | insertChunks (docs : List ChunkDoc)
  | deleteStale (addr eTag : String)
deriving DecidableEq, Repr

/-- The ordered list of store writes `ingestObject` issues for a loaded and
embedded chunk batch. -/
def ingestObjectOps (chunksWithVector : List ChunkDoc) (s3Address objectEtag : String) : List StoreOp :=
  [StoreOp.insertChunks chunksWithVector, StoreOp.deleteStale s3Address objectEtag]

/-- Effect of one store write on the chunk collection. -/
def applyOp (chunks : List ChunkDoc) : StoreOp → List ChunkDoc
  | .insertChunks docs => chunks ++ docs
  | .deleteStale addr eTag => staleRemove addr eTag chunks

/-- All chunk-collection states observable while a list of store writes
completes in issue order: the initial state and the state after each prefix. -/
def opTrace (chunks : List ChunkDoc) : List StoreOp → List (List ChunkDoc)
  | [] => [chunks]
  | op :: ops => chunks :: opTrace (applyOp chunks op) ops

/-- Does the chunk collection hold at least one chunk for the address? -/
def hasChunksFor (addr : String) (chunks : List ChunkDoc) : Bool :=
  chunks.any (fun c => decide (c.source = some addr))

/-- The hybrid retriever's configuration (constructor arguments of
`MongoDBHybridRetriever`). -/
structure MongoDBHybridRetriever where
  vectorSearchIndex : String
  textSearchIndex : String
deriving DecidableEq, Repr

/-- The aggregation built by `buildHybridSearchAggregation`, abstracted to its
stage parameters: the `$vectorSearch` stage (index, path `embedding`, query
vector, `numCandidates`, `limit`), the per-branch reciprocal-rank scoring
(`weight * (1 / (rank + 60))`), the `$unionWith`-ed `$search` branch over the
same collection with its `$limit`, and the final `$sort {score: -1}` plus
`$limit`. -/
structure HybridAggregation where
  vectorIndex : String
  vectorPath : String
  queryVector : List ℚ
  numCandidates : Nat
  vectorLimit : Nat
  vectorWeight : ℚ
  rrfConstant : ℚ
  unionColl : String
  textIndex : String
  textQuery : String
  textPath : String
  textLimit : Nat
  fullTextWeight : ℚ
  finalLimit : Nat
deriving Repr

/-- Model of `MongoDBHybridRetriever.buildHybridSearchAggregation`
(lines 64-207): record each stage parameter exactly as the source writes it
(`numCandidates: k*10`, `limit: k` in `$vectorSearch`; `$limit: k` after
`$search`; smoothing constant 60; trailing `$sort`/`$limit: k`). -/
def MongoDBHybridRetriever.buildHybridSearchAggregation (self : MongoDBHybridRetriever)
    (textQuery : String) (vector : List ℚ) (k : Nat) (vectorWeight fullTextWeight : ℚ) :
    HybridAggregation :=
  { vectorIndex := self.vectorSearchIndex
    vectorPath := "embedding"
    queryVector := vector
    numCandidates := k * 10
    vectorLimit := k
    vectorWeight := vectorWeight
    rrfConstant := 60
    unionColl := "kbChunks"
    textIndex := self.textSearchIndex
    textQuery := textQuery
    textPath := "text"
    textLimit := k
    fullTextWeight := fullTextWeight
    finalLimit := k }

/-- Rank-annotate a document list, starting at the given index: the model of
`$group {_id: null, docs: {$push: "$$ROOT"}}` followed by
`$unwind {path: "$docs", includeArrayIndex: "rank"}`, which numbers the
branch's documents 0, 1, 2, … in result order. -/
def withRanks : Nat → List ChunkDoc → List (Nat × ChunkDoc)
  | _, [] => []
  | n, d :: ds => (n, d) :: withRanks (n + 1) ds

/-- The reciprocal-rank score one branch assigns at a rank:
`weight * (1 / (rank + 60))`, exactly the `$multiply`/`$divide`/`$add`
expression of the aggregation. -/
def rrfScore (w : ℚ) (rank : Nat) : ℚ := w * (1 / ((rank : ℚ) + 60))

/-- One row of the `$unionWith`-merged stream: the branch document together
with its `vs_score` (vector branch) or `fts_score` (full-text branch); the
score of the other branch is a missing field (`none`). -/
structure StreamEntry where
  doc : ChunkDoc
  vs : Option ℚ
  fts : Option ℚ
deriving DecidableEq, Repr

/-- The merged stream entering the fusion `$group`: the vector branch's ranked
and scored rows followed by the full-text branch's (the `$unionWith`
concatenation). -/
def unionStream (vectorWeight fullTextWeight : ℚ) (vdocs fdocs : List ChunkDoc) : List StreamEntry :=
  (withRanks 0 vdocs).map (fun p => ⟨p.2, some (rrfScore vectorWeight p.1), none⟩)
  ++ (withRanks 0 fdocs).map (fun p => ⟨p.2, none, some (rrfScore fullTextWeight p.1)⟩)

/-- The `$max` group accumulator over optional values: missing fields are
ignored, present values are combined with `max`. -/
def optMax : Option ℚ → Option ℚ → Option ℚ
  | none, b => b
  | some a, none => some a
  | some a, some b => some (max a b)

/-- The fusion `$group`'s `vs_score: {$max: "$vs_score"}` accumulator for one
group key. -/
def groupMaxVs (stream : List StreamEntry) (id : String) : Option ℚ :=
  stream.foldl (fun acc e => if e.doc._id = id then optMax acc e.vs else acc) none

/-- The fusion `$group`'s `fts_score: {$max: "$fts_score"}` accumulator for one
group key. -/
def groupMaxFts (stream : List StreamEntry) (id : String) : Option ℚ :=
  stream.foldl (fun acc e => if e.doc._id = id then optMax acc e.fts else acc) none

/-- One stream row per distinct `_id`, keeping the first row of each group:
this carries the `docs: {$first: "$docs"}` group accumulator. -/
def dedupById : List StreamEntry → List StreamEntry
  | [] => []
  | e :: es => e :: dedupById (es.filter (fun x => decide (x.doc._id ≠ e.doc._id)))
termination_by l => l.length
decreasing_by
  simp only [List.length_cons]
  exact Nat.lt_succ_of_le (List.length_filter_le _ _)

/-- A fused result row after `$replaceRoot` and `$unset: "embedding"`: the
first-seen document's text and metadata, the `$ifNull`-defaulted branch
scores, and `score = vs_score + fts_score`. -/
structure QueryResult where
  _id : String
  text : String
  metadata : AttrMap
  vs_score : ℚ
  fts_score : ℚ
  score : ℚ
deriving DecidableEq, Repr

/-- The fusion `$group` / `$addFields` / `$replaceRoot` / `$unset` stages: one
row per distinct `_id`, scores accumulated by `$max` over the whole stream,
missing branch scores defaulted to 0 by `$ifNull`, summed into `score`. -/
def groupFuse (stream : List StreamEntry) : List QueryResult :=
  (dedupById stream).map (fun e =>
    let vs := (groupMaxVs stream e.doc._id).getD 0
    let fts := (groupMaxFts stream e.doc._id).getD 0
    ⟨e.doc._id, e.doc.text, e.doc.metadata, vs, fts, vs + fts⟩)

/-- Insertion step of the descending-by-`score` sort (`$sort {score: -1}`). -/
def insertByScoreDesc (d : QueryResult) : List QueryResult → List QueryResult
  | [] => [d]
  | e :: es => if e.score < d.score then d :: e :: es else e :: insertByScoreDesc d es

/-- Descending-by-`score` sort (`$sort {score: -1}`; ties keep stream order,
which MongoDB leaves unspecified). -/
def sortByScoreDesc (l : List QueryResult) : List QueryResult :=
  l.foldr insertByScoreDesc []

/-- The whole fusion tail of the aggregation on the two branches' ranked
document lists: score, union, group, sort descending, truncate to `k`. -/
def fuseResults (vectorWeight fullTextWeight : ℚ) (vdocs fdocs : List ChunkDoc) (k : Nat) :
    List QueryResult :=
  (sortByScoreDesc (groupFuse (unionStream vectorWeight fullTextWeight vdocs fdocs))).take k

/-- The backing store's two native search primitives, as oracles:
`vectorSearch index queryVector numCandidates` is the full ranking the
approximate-nearest-neighbour search would deliver (the `$vectorSearch` stage
then returns its top `limit`), `textSearch index query` is the full-text
relevance ranking (truncated by the following `$limit`). -/
structure SearchStore where
  vectorSearch : String → List ℚ → Nat → List ChunkDoc
  textSearch : String → String → List ChunkDoc

/-- The documents the `$vectorSearch` stage of an aggregation returns: the
oracle's ranking truncated to the stage's `limit`. -/
def vectorBranchDocs (store : SearchStore) (agg : HybridAggregation) : List ChunkDoc :=
  (store.vectorSearch agg.vectorIndex agg.queryVector agg.numCandidates).take agg.vectorLimit

/-- The documents the `$search` branch contributes: the oracle's ranking
truncated by the `$limit` stage. -/
def textBranchDocs (store : SearchStore) (agg : HybridAggregation) : List ChunkDoc :=
  (store.textSearch agg.textIndex agg.textQuery).take agg.textLimit

/-- Executing a built aggregation against the store: both branches, then the
fusion tail. -/
def runAggregation (store : SearchStore) (agg : HybridAggregation) : List QueryResult :=
  fuseResults agg.vectorWeight agg.fullTextWeight
    (vectorBranchDocs store agg) (textBranchDocs store agg) agg.finalLimit

/-- External collaborators of the retrieval path:
* `getVectorEmbeddings` — `VectorGeneratorFacade.getVectorEmbeddings`, the
  embedding model call (a throw aborts the query);
* `parseJSON` — `JSON.parse` restricted to the flat string maps the filters
  use;
* `stringify` — `JSON.stringify` of one result document. -/
structure RetrievalEnv where
  getVectorEmbeddings : String → Except String (List ℚ)
  parseJSON : String → AttrMap
  stringify : QueryResult → String

/-- Model of `MongoDBHybridRetriever.hybridSearch` (lines 39-52): build the
aggregation and run it on the chunk collection. -/
def MongoDBHybridRetriever.hybridSearch (self : MongoDBHybridRetriever) (store : SearchStore)
    (textQuery : String) (vector : List ℚ) (k : Nat) (vectorWeight fullTextWeight : ℚ) :
    List QueryResult :=
  runAggregation store (self.buildHybridSearchAggregation textQuery vector k vectorWeight fullTextWeight)

/-- Model of `MongoDBHybridRetriever.query` (lines 24-28): embed the text, then
`hybridSearch(text, vector, 10)` with the TypeScript default weights 0.1/0.9.
The `filters` argument is accepted but never used by the source. -/
def MongoDBHybridRetriever.query (self : MongoDBHybridRetriever) (store : SearchStore)
    (env : RetrievalEnv) (text : String) (filters : Option AttrMap) :
    Except String (List QueryResult) :=
  match env.getVectorEmbeddings text with
  | .error e => .error e
  | .ok vector => .ok (self.hybridSearch store text vector 10 (1 / 10) (9 / 10))

/-- One entry of a Bedrock agent event's `parameters` array. -/
structure AgentParameter where
  name : String
  type : String
  value : String
deriving DecidableEq, Repr

/-- The Bedrock agent request fields the retrieval handler reads
(BedrockAgentEvent.ts). -/
structure BedrockAgentEvent where
  function : String
  parameters : List AgentParameter
  sessionAttributes : AttrMap
  promptSessionAttributes : AttrMap
  inputText : String
  actionGroup : String
deriving DecidableEq, Repr

/-- The `functionResponse.responseBody.TEXT` payload of the response. -/
structure FunctionResponseBody where
  body : String
deriving DecidableEq, Repr

/-- The `response` object of a Bedrock agent response. -/
structure ResponseContent where
  actionGroup : String
  function : String
  responseBody : FunctionResponseBody
deriving DecidableEq, Repr

/-- The Bedrock agent response the handler returns (BedrockAgentEvent.ts). -/
structure BedrockAgentResponse where
  messageVersion : String
  response : ResponseContent
  sessionAttributes : AttrMap
  promptSessionAttributes : AttrMap
deriving DecidableEq, Repr

/-- The JavaScript object spread `{...a, ...b}` on flat maps: later spreads
win on key collision. -/
def objectSpread (a b : AttrMap) : AttrMap := overrideAppend a b

/-- The call-level filter map of the handler (retrievalHandler.ts line 75 and
78): the `filters` parameter's value parsed as JSON; an absent parameter or an
empty (falsy) string yields the empty map. -/
def callFilterMap (env : RetrievalEnv) (event : BedrockAgentEvent) : AttrMap :=
  match (event.parameters.find? (fun p => decide (p.name = "filters"))).map AgentParameter.value with
  | some s => if s = "" then [] else env.parseJSON s
  | none => []

/-- The session-level filter map of the handler (lines 76 and 79): the
`promptSessionAttributes.filters` attribute parsed as JSON; absent or falsy
yields the empty map. -/
def sessionFilterMap (env : RetrievalEnv) (event : BedrockAgentEvent) : AttrMap :=
  match event.promptSessionAttributes.lookup "filters" with
  | some s => if s = "" then [] else env.parseJSON s
  | none => []

/-- The merged filter map the handler builds (lines 77-80):
`{...callLevel, ...sessionLevel}` — the session-level spread comes second. -/
def mergedFilters (env : RetrievalEnv) (event : BedrockAgentEvent) : AttrMap :=
  objectSpread (callFilterMap env event) (sessionFilterMap env event)

/-- The `<source>` tag content for one result: `${d.metadata?.source}`
interpolates the string `undefined` when the field is missing. -/
def sourceTagOf (d : QueryResult) : String :=
  match d.metadata.lookup "source" with
  | some s => s
  | none => "undefined"

/-- The `responseBody.TEXT.body` string of the handler (line 91). -/
def serializeResults (env : RetrievalEnv) (results : List QueryResult) : String :=
  "<search_results>" ++
    String.join (results.map (fun d =>
      "<search_result>" ++ env.stringify d ++ "<source>" ++ sourceTagOf d ++
        "</source></search_result>")) ++
  "</search_results>"

/-- Model of the retrieval `handler` (retrievalHandler.ts lines 68-103): merge
the two filter sources, query the retriever, and wrap the serialized results
in a response that echoes the event's `sessionAttributes` and
`promptSessionAttributes`. A query failure propagates (the handler has no
catch). -/
def handler (self : MongoDBHybridRetriever) (store : SearchStore) (env : RetrievalEnv)
    (event : BedrockAgentEvent) : Except String BedrockAgentResponse :=
  let filters := mergedFilters env event
  match self.query store env event.inputText (some filters) with
  | .error e => .error e
  | .ok result => .ok
      { messageVersion := "1.0"
        response :=
          { actionGroup := event.actionGroup
            function := event.function
            responseBody := { body := serializeResults env result } }
        sessionAttributes := event.sessionAttributes
        promptSessionAttributes := event.promptSessionAttributes }

/-- Maximum of a rational list as an optional value (the `$max` accumulator
restricted to present values). -/
def optMaxList (l : List ℚ) : Option ℚ :=
  l.foldl (fun a x => optMax a (some x)) none

/-- The 0-based ranks at which a given `_id` occurs in a branch's document
list. -/
def branchRanks (docs : List ChunkDoc) (id : String) : List Nat :=
  (withRanks 0 docs).filterMap (fun p => if p.2._id = id then some p.1 else none)

theorem optMax_none_right (a : Option ℚ) : optMax a none = a := by
  cases a <;> rfl

theorem mem_insertByScoreDesc {x d : QueryResult} {l : List QueryResult} :
    x ∈ insertByScoreDesc d l ↔ x = d ∨ x ∈ l := by
  induction l with
  | nil => simp [insertByScoreDesc]
  | cons e es ih =>
    simp only [insertByScoreDesc]
    by_cases h : e.score < d.score
    · simp [h]
    · rw [if_neg h]
      simp only [List.mem_cons, ih]
      tauto

theorem mem_sortByScoreDesc {x : QueryResult} {l : List QueryResult} :
    x ∈ sortByScoreDesc l ↔ x ∈ l := by
  induction l with
  | nil => simp [sortByScoreDesc]
  | cons e es ih =>
    simp only [sortByScoreDesc, List.foldr_cons] at ih ⊢
    rw [mem_insertByScoreDesc]
    simp [ih, eq_comm]

theorem mem_groupFuse {x : QueryResult} {s : List StreamEntry} (hx : x ∈ groupFuse s) :
    x.score = x.vs_score + x.fts_score
    ∧ x.vs_score = (groupMaxVs s x._id).getD 0
    ∧ x.fts_score = (groupMaxFts s x._id).getD 0 := by
  obtain ⟨e, _, rfl⟩ := List.mem_map.mp hx
  exact ⟨rfl, rfl, rfl⟩

theorem mem_fuseResults {d : QueryResult} {vw fw : ℚ} {vd fd : List ChunkDoc} {k : Nat}
    (hd : d ∈ fuseResults vw fw vd fd k) :
    d ∈ groupFuse (unionStream vw fw vd fd) :=
  mem_sortByScoreDesc.mp (List.take_subset _ _ hd)

theorem foldl_vs_over_fts_entries (id : String) (w : ℚ) (l : List (Nat × ChunkDoc)) :
    ∀ acc, List.foldl (fun acc e => if e.doc._id = id then optMax acc e.vs else acc) acc
      (l.map (fun p => (⟨p.2, none, some (rrfScore w p.1)⟩ : StreamEntry))) = acc := by
  induction l with
  | nil => intro acc; rfl
  | cons p ps ih =>
    intro acc
    by_cases h : p.2._id = id <;> simp [h, optMax_none_right, ih]

theorem foldl_fts_over_vs_entries (id : String) (w : ℚ) (l : List (Nat × ChunkDoc)) :
    ∀ acc, List.foldl (fun acc e => if e.doc._id = id then optMax acc e.fts else acc) acc
      (l.map (fun p => (⟨p.2, some (rrfScore w p.1), none⟩ : StreamEntry))) = acc := by
  induction l with
  | nil => intro acc; rfl
  | cons p ps ih =>
    intro acc
    by_cases h : p.2._id = id <;> simp [h, optMax_none_right, ih]

theorem foldl_vs_over_vs_entries (id : String) (w : ℚ) (l : List (Nat × ChunkDoc)) :
    ∀ acc, List.foldl (fun acc e => if e.doc._id = id then optMax acc e.vs else acc) acc
      (l.map (fun p => (⟨p.2, some (rrfScore w p.1), none⟩ : StreamEntry)))
    = List.foldl (fun a x => optMax a (some x)) acc
        ((l.filterMap (fun p => if p.2._id = id then some p.1 else none)).map (rrfScore w)) := by
  induction l with
  | nil => intro acc; rfl
  | cons p ps ih =>
    intro acc
    by_cases h : p.2._id = id <;> simp [h, ih]

theorem foldl_fts_over_fts_entries (id : String) (w : ℚ) (l : List (Nat × ChunkDoc)) :
    ∀ acc, List.foldl (fun acc e => if e.doc._id = id then optMax acc e.fts else acc) acc
      (l.map (fun p => (⟨p.2, none, some (rrfScore w p.1)⟩ : StreamEntry)))
    = List.foldl (fun a x => optMax a (some x)) acc
        ((l.filterMap (fun p => if p.2._id = id then some p.1 else none)).map (rrfScore w)) := by
  induction l with
  | nil => intro acc; rfl
  | cons p ps ih =>
    intro acc
    by_cases h : p.2._id = id <;> simp [h, ih]

theorem groupMaxVs_unionStream (vw fw : ℚ) (vd fd : List ChunkDoc) (id : String) :
    groupMaxVs (unionStream vw fw vd fd) id
    = optMaxList ((branchRanks vd id).map (rrfScore vw)) := by
  unfold groupMaxVs unionStream optMaxList branchRanks
  rw [List.foldl_append, foldl_vs_over_vs_entries, foldl_vs_over_fts_entries]

theorem groupMaxFts_unionStream (vw fw : ℚ) (vd fd : List ChunkDoc) (id : String) :
    groupMaxFts (unionStream vw fw vd fd) id
    = optMaxList ((branchRanks fd id).map (rrfScore fw)) := by
  unfold groupMaxFts unionStream optMaxList branchRanks
  rw [List.foldl_append, foldl_fts_over_vs_entries, foldl_fts_over_fts_entries]

theorem mem_withRanks {p : Nat × ChunkDoc} :
    ∀ {n : Nat} {l : List ChunkDoc}, p ∈ withRanks n l → p.2 ∈ l := by
  intro n l
  induction l generalizing n with
  | nil => intro h; cases h
  | cons d ds ih =>
    intro h
    simp only [withRanks] at h
    rcases List.mem_cons.mp h with hh | hh
    · simp [hh]
    · exact List.mem_cons_of_mem _ (ih hh)

theorem branchRanks_eq_nil {docs : List ChunkDoc} {id : String}
    (h : ∀ c ∈ docs, c._id ≠ id) : branchRanks docs id = [] := by
  unfold branchRanks
  rw [List.filterMap_eq_nil_iff]
  intro p hp
  simp [h p.2 (mem_withRanks hp)]

/-- C1: reciprocal-rank-fusion scoring. For the fusion semantics of the
aggregation built by `buildHybridSearchAggregation` with weights 0.1/0.9 and
smoothing constant 60, every fused row satisfies `score = vs_score +
fts_score`, each branch score is the `$max` over that branch's
`weight * (1 / (rank + 60))` contributions for the row's id (ranks starting at
0), a row absent from a branch gets 0 for that branch via `$ifNull`; and on
the concrete branches vector = [id1, id2], full-text = [id2, id3] the fused
scores are id1 = 0.1/60, id2 = 0.1/61 + 0.9/60, id3 = 0.9/61, sorted
descending as id2, id3, id1. -/
theorem reciprocal_rank_fusion_scoring (vdocs fdocs : List ChunkDoc) (k : Nat)
    (d : QueryResult) (hd : d ∈ fuseResults (1 / 10) (9 / 10) vdocs fdocs k) :
    d.score = d.vs_score + d.fts_score
    ∧ d.vs_score = (optMaxList ((branchRanks vdocs d._id).map (rrfScore (1 / 10)))).getD 0
    ∧ d.fts_score = (optMaxList ((branchRanks fdocs d._id).map (rrfScore (9 / 10)))).getD 0
    ∧ ((∀ c ∈ vdocs, c._id ≠ d._id) → d.vs_score = 0)
    ∧ ((∀ c ∈ fdocs, c._id ≠ d._id) → d.fts_score = 0)
    ∧ fuseResults (1 / 10) (9 / 10)
        [⟨"id1", "t1", [], []⟩, ⟨"id2", "t2", [], []⟩]
        [⟨"id2", "t2", [], []⟩, ⟨"id3", "t3", [], []⟩] 10
      = [⟨"id2", "t2", [], (1 / 10) / 61, (9 / 10) / 60, (1 / 10) / 61 + (9 / 10) / 60⟩,
         ⟨"id3", "t3", [], 0, (9 / 10) / 61, (9 / 10) / 61⟩,
         ⟨"id1", "t1", [], (1 / 10) / 60, 0, (1 / 10) / 60⟩] := by
  obtain ⟨hscore, hvs, hfts⟩ := mem_groupFuse (mem_fuseResults hd)
  rw [groupMaxVs_unionStream] at hvs
  rw [groupMaxFts_unionStream] at hfts
  refine ⟨hscore, hvs, hfts, ?_, ?_, ?_⟩
  · intro h
    rw [hvs, branchRanks_eq_nil h]
    rfl
  · intro h
    rw [hfts, branchRanks_eq_nil h]
    rfl
  · simp [fuseResults, unionStream, withRanks, rrfScore, groupFuse, dedupById,
      groupMaxVs, groupMaxFts, optMax, sortByScoreDesc]
    norm_num [insertByScoreDesc, List.take]

/-- Witness for C1: the fused id2 row of the concrete example is a member of
the fused results and satisfies `score = vs_score + fts_score`. -/
theorem reciprocal_rank_fusion_scoring_witness :
    (⟨"id2", "t2", [], (1 / 10) / 61, (9 / 10) / 60, (1 / 10) / 61 + (9 / 10) / 60⟩ : QueryResult)
      ∈ fuseResults (1 / 10) (9 / 10)
          [⟨"id1", "t1", [], []⟩, ⟨"id2", "t2", [], []⟩]
          [⟨"id2", "t2", [], []⟩, ⟨"id3", "t3", [], []⟩] 10
    ∧ (⟨"id2", "t2", [], (1 / 10) / 61, (9 / 10) / 60,
        (1 / 10) / 61 + (9 / 10) / 60⟩ : QueryResult).score
      = (⟨"id2", "t2", [], (1 / 10) / 61, (9 / 10) / 60,
          (1 / 10) / 61 + (9 / 10) / 60⟩ : QueryResult).vs_score
        + (⟨"id2", "t2", [], (1 / 10) / 61, (9 / 10) / 60,
            (1 / 10) / 61 + (9 / 10) / 60⟩ : QueryResult).fts_score := by
  have hmem : (⟨"id2", "t2", [], (1 / 10) / 61, (9 / 10) / 60,
      (1 / 10) / 61 + (9 / 10) / 60⟩ : QueryResult)
      ∈ fuseResults (1 / 10) (9 / 10)
          [⟨"id1", "t1", [], []⟩, ⟨"id2", "t2", [], []⟩]
          [⟨"id2", "t2", [], []⟩, ⟨"id3", "t3", [], []⟩] 10 := by
    have heq : fuseResults (1 / 10) (9 / 10)
        [⟨"id1", "t1", [], []⟩, ⟨"id2", "t2", [], []⟩]
        [⟨"id2", "t2", [], []⟩, ⟨"id3", "t3", [], []⟩] 10
      = [⟨"id2", "t2", [], (1 / 10) / 61, (9 / 10) / 60, (1 / 10) / 61 + (9 / 10) / 60⟩,
         ⟨"id3", "t3", [], 0, (9 / 10) / 61, (9 / 10) / 61⟩,
         ⟨"id1", "t1", [], (1 / 10) / 60, 0, (1 / 10) / 60⟩] := by
      simp [fuseResults, unionStream, withRanks, rrfScore, groupFuse, dedupById,
        groupMaxVs, groupMaxFts, optMax, sortByScoreDesc]
      norm_num [insertByScoreDesc, List.take]
    rw [heq]
    simp
  exact ⟨hmem, (reciprocal_rank_fusion_scoring _ _ _ _ hmem).1⟩

theorem lookup_map_override (m : AttrMap) (key : String) :
    ∀ a : AttrMap, (a.map (fun kv => match m.lookup kv.1 with
        | some v => (kv.1, v)
        | none => kv)).lookup key
      = match a.lookup key with
        | some w => match m.lookup key with
          | some v => some v
          | none => some w
        | none => none := by
  intro a
  induction a with
  | nil => rfl
  | cons kv rest ih =>
    by_cases h : key = kv.1
    · cases hm : m.lookup kv.1 <;> simp [List.lookup, h, hm]
    · have hb : (key == kv.1) = false := by simp [h]
      cases hm : m.lookup kv.1 <;> simp [List.lookup, hb, hm, ih]

theorem lookup_filter_isNone (a : AttrMap) (key : String) (h : a.lookup key = none) :
    ∀ m : AttrMap, (m.filter (fun kv => (a.lookup kv.1).isNone)).lookup key = m.lookup key := by
  intro m
  induction m with
  | nil => rfl
  | cons kv rest ih =>
    by_cases hk : key = kv.1
    · have : a.lookup kv.1 = none := hk ▸ h
      simp [List.filter_cons, this, List.lookup, hk]
    · have hb : (key == kv.1) = false := by simp [hk]
      cases hfk : (a.lookup kv.1).isNone <;>
        simp [List.filter_cons, hfk, List.lookup, hb, ih]

theorem lookup_append_attr (l1 l2 : AttrMap) (key : String) :
    (l1 ++ l2).lookup key
      = match l1.lookup key with
        | some v => some v
        | none => l2.lookup key := by
  induction l1 with
  | nil => rfl
  | cons kv rest ih =>
    by_cases h : key = kv.1
    · simp [List.lookup, h]
    · have hb : (key == kv.1) = false := by simp [h]
      simp [List.lookup, hb, ih]

theorem lookup_overrideAppend_of_some {m : AttrMap} {key : String} {v : String}
    (hm : m.lookup key = some v) (a : AttrMap) :
    (overrideAppend a m).lookup key = some v := by
  unfold overrideAppend
  rw [lookup_append_attr, lookup_map_override]
  cases ha : a.lookup key
  · simp [lookup_filter_isNone a key ha, hm]
  · simp [hm]

theorem lookup_overrideAppend_of_none {m : AttrMap} {key : String}
    (hm : m.lookup key = none) (a : AttrMap) :
    (overrideAppend a m).lookup key = a.lookup key := by
  unfold overrideAppend
  rw [lookup_append_attr, lookup_map_override]
  cases ha : a.lookup key
  · simp [lookup_filter_isNone a key ha, hm]
  · simp [hm]

/-- C3: filter scoping. The claim says a supplied filters map pre-filters both
branches so that a non-matching chunk never appears in the fused result; the
code never uses the `filters` argument. The source's own doc comment calls the
parameter "Additional filters to apply to the search", so this is a defect in
the code: `query` is independent of `filters` (first conjunct, definitional),
and at the failing input — filter `category = "a"`, a candidate chunk with
`metadata.category = "b"` ranked by the vector branch — the chunk still
appears in the fused result (second conjunct), although its metadata does not
satisfy the filter (third conjunct). -/
theorem query_ignores_filters :
    (∀ (self : MongoDBHybridRetriever) (store : SearchStore) (env : RetrievalEnv)
        (text : String) (f1 f2 : Option AttrMap),
      MongoDBHybridRetriever.query self store env text f1
        = MongoDBHybridRetriever.query self store env text f2)
    ∧ MongoDBHybridRetriever.query ⟨"vidx", "tidx"⟩
        ⟨fun _ _ _ => [⟨"c1", "t", [], [("source", "s"), ("eTag", "e"), ("category", "b")]⟩],
          fun _ _ => []⟩
        ⟨fun _ => .ok [], fun _ => [], fun _ => ""⟩
        "q" (some [("category", "a")])
      = .ok [⟨"c1", "t", [("source", "s"), ("eTag", "e"), ("category", "b")],
              (1 / 10) / 60, 0, (1 / 10) / 60⟩]
    ∧ ([("category", "a")] : AttrMap).lookup "category" ≠ some "b" := by
  refine ⟨fun _ _ _ _ _ _ => rfl, ?_, by decide⟩
  simp [MongoDBHybridRetriever.query, MongoDBHybridRetriever.hybridSearch,
    MongoDBHybridRetriever.buildHybridSearchAggregation, runAggregation,
    vectorBranchDocs, textBranchDocs, fuseResults, unionStream, withRanks, rrfScore,
    groupFuse, dedupById, groupMaxVs, groupMaxFts, optMax, sortByScoreDesc,
    insertByScoreDesc, List.take]
  norm_num

/-- C6 counterexample: with a call-level `filters` parameter binding `k` to
`call` and a session-level `promptSessionAttributes.filters` binding `k` to
`session`, the merged map binds `k` to the session value — the session-level
spread comes last in `{...call, ...session}` — refuting the claim that the
call-level parameter wins on key collision. -/
theorem filter_merge_call_precedence_counterexample :
    (mergedFilters
      ⟨fun _ => .ok [],
        fun s => if s = "CALLJSON" then [("k", "call")]
          else if s = "SESSIONJSON" then [("k", "session")] else [],
        fun _ => ""⟩
      ⟨"fn", [⟨"filters", "string", "CALLJSON"⟩], [], [("filters", "SESSIONJSON")],
        "q", "ag"⟩).lookup "k" = some "session"
    ∧ some "session" ≠ (some "call" : Option String) := by
  exact ⟨by decide, by decide⟩

/-- C6 amended: when a query request carries both a call-level `filters`
parameter and a session-level filters attribute, the handler merges the two
maps with the session-level value winning on key collision; keys bound only by
the call-level parameter keep their call-level value. -/
theorem filter_merge_session_precedence (env : RetrievalEnv) (event : BedrockAgentEvent)
    (key : String) :
    (∀ v, (sessionFilterMap env event).lookup key = some v →
      (mergedFilters env event).lookup key = some v)
    ∧ ((sessionFilterMap env event).lookup key = none →
      (mergedFilters env event).lookup key = (callFilterMap env event).lookup key) :=
  ⟨fun _ hv => lookup_overrideAppend_of_some hv _,
    fun hn => lookup_overrideAppend_of_none hn _⟩

/-- Witness for C6's amended theorem at the concrete counterexample input: the
session binding of `k` wins in the merged map. -/
theorem filter_merge_session_precedence_witness :
    (mergedFilters
      ⟨fun _ => .ok [],
        fun s => if s = "CALLJSON" then [("k", "call")]
          else if s = "SESSIONJSON" then [("k", "session")] else [],
        fun _ => ""⟩
      ⟨"fn", [⟨"filters", "string", "CALLJSON"⟩], [], [("filters", "SESSIONJSON")],
        "q", "ag"⟩).lookup "k" = some "session" :=
  (filter_merge_session_precedence _ _ "k").1 "session" (by decide)

/-- C7 counterexample: for `k = 1` the built `$vectorSearch` stage has
`limit = k = 1` while `numCandidates = k*10 = 10`, so with a store ranking two
documents the vector branch contributes only the top 1 — not the top `k*10`
the claim states: its length is 1, not 10, and the rank-1 document `b` is
absent from the fused result. -/
theorem vector_branch_returns_k_counterexample :
    (MongoDBHybridRetriever.buildHybridSearchAggregation ⟨"vidx", "tidx"⟩ "t" [] 1
        (1 / 10) (9 / 10)).vectorLimit = 1
    ∧ (MongoDBHybridRetriever.buildHybridSearchAggregation ⟨"vidx", "tidx"⟩ "t" [] 1
        (1 / 10) (9 / 10)).numCandidates = 10
    ∧ vectorBranchDocs
        ⟨fun _ _ _ => [⟨"a", "ta", [], []⟩, ⟨"b", "tb", [], []⟩], fun _ _ => []⟩
        (MongoDBHybridRetriever.buildHybridSearchAggregation ⟨"vidx", "tidx"⟩ "t" [] 1
          (1 / 10) (9 / 10))
      = [⟨"a", "ta", [], []⟩]
    ∧ (vectorBranchDocs
        ⟨fun _ _ _ => [⟨"a", "ta", [], []⟩, ⟨"b", "tb", [], []⟩], fun _ _ => []⟩
        (MongoDBHybridRetriever.buildHybridSearchAggregation ⟨"vidx", "tidx"⟩ "t" [] 1
          (1 / 10) (9 / 10))).length ≠ 1 * 10
    ∧ runAggregation
        ⟨fun _ _ _ => [⟨"a", "ta", [], []⟩, ⟨"b", "tb", [], []⟩], fun _ _ => []⟩
        (MongoDBHybridRetriever.buildHybridSearchAggregation ⟨"vidx", "tidx"⟩ "t" [] 1
          (1 / 10) (9 / 10))
      = [⟨"a", "ta", [], (1 / 10) / 60, 0, (1 / 10) / 60⟩] := by
  refine ⟨rfl, rfl, by decide, by decide, ?_⟩
  simp [runAggregation, MongoDBHybridRetriever.buildHybridSearchAggregation,
    vectorBranchDocs, textBranchDocs, fuseResults, unionStream, withRanks, rrfScore,
    groupFuse, dedupById, groupMaxVs, groupMaxFts, optMax, sortByScoreDesc,
    insertByScoreDesc, List.take]
  norm_num

/-- C7 amended: for every hybrid query with result limit `k`, the built
`$vectorSearch` stage requests an ANN candidate pool of `numCandidates = k*10`
(the over-fetch) but returns only the top `k` (`limit: k`), which is then
fused with the full-text branch's top `k`. -/
theorem vector_branch_overfetch (self : MongoDBHybridRetriever) (textQuery : String)
    (vector : List ℚ) (k : Nat) (vectorWeight fullTextWeight : ℚ) (store : SearchStore) :
    (self.buildHybridSearchAggregation textQuery vector k vectorWeight fullTextWeight).numCandidates
        = k * 10
    ∧ (self.buildHybridSearchAggregation textQuery vector k vectorWeight fullTextWeight).vectorLimit
        = k
    ∧ (self.buildHybridSearchAggregation textQuery vector k vectorWeight fullTextWeight).textLimit
        = k
    ∧ vectorBranchDocs store
        (self.buildHybridSearchAggregation textQuery vector k vectorWeight fullTextWeight)
      = (store.vectorSearch self.vectorSearchIndex vector (k * 10)).take k :=
  ⟨rfl, rfl, rfl, rfl⟩

/-- C10: session-attribute pass-through. Whenever the handler returns
successfully, the response carries the event's `sessionAttributes` and
`promptSessionAttributes` maps unchanged. -/
theorem session_attributes_passthrough (self : MongoDBHybridRetriever) (store : SearchStore)
    (env : RetrievalEnv) (event : BedrockAgentEvent) (resp : BedrockAgentResponse)
    (h : handler self store env event = .ok resp) :
    resp.sessionAttributes = event.sessionAttributes
    ∧ resp.promptSessionAttributes = event.promptSessionAttributes := by
  simp only [handler] at h
  cases hq : MongoDBHybridRetriever.query self store env event.inputText
      (some (mergedFilters env event)) with
  | error e =>
    rw [hq] at h
    cases h
  | ok result =>
    rw [hq] at h
    cases h
    exact ⟨rfl, rfl⟩

/-- Witness for C10 at a concrete event: the returned response echoes the
event's two attribute maps. -/
theorem session_attributes_passthrough_witness :
    (⟨"1.0", ⟨"ag", "fn", ⟨"<search_results></search_results>"⟩⟩,
        [("s", "1")], [("p", "2")]⟩ : BedrockAgentResponse).sessionAttributes
      = (⟨"fn", [], [("s", "1")], [("p", "2")], "q", "ag"⟩ : BedrockAgentEvent).sessionAttributes
    ∧ (⟨"1.0", ⟨"ag", "fn", ⟨"<search_results></search_results>"⟩⟩,
        [("s", "1")], [("p", "2")]⟩ : BedrockAgentResponse).promptSessionAttributes
      = (⟨"fn", [], [("s", "1")], [("p", "2")], "q", "ag"⟩ : BedrockAgentEvent).promptSessionAttributes := by
  have h : handler ⟨"v", "t"⟩ ⟨fun _ _ _ => [], fun _ _ => []⟩
      ⟨fun _ => .ok [], fun _ => [], fun _ => ""⟩
      ⟨"fn", [], [("s", "1")], [("p", "2")], "q", "ag"⟩
      = .ok ⟨"1.0", ⟨"ag", "fn", ⟨"<search_results></search_results>"⟩⟩,
          [("s", "1")], [("p", "2")]⟩ := by
    simp [handler, MongoDBHybridRetriever.query, MongoDBHybridRetriever.hybridSearch,
      MongoDBHybridRetriever.buildHybridSearchAggregation, runAggregation,
      vectorBranchDocs, textBranchDocs, fuseResults, unionStream, withRanks,
      groupFuse, dedupById, sortByScoreDesc, mergedFilters, objectSpread,
      callFilterMap, sessionFilterMap, overrideAppend, serializeResults,
      String.join, List.take]
  exact session_attributes_passthrough _ _ _ _ _ h

theorem ingestMetadata_kbInventory (env : IngestEnv) (b k : String) (st : KBState) :
    (ingestMetadata env b k st).kbInventory = st.kbInventory := by
  simp only [ingestMetadata]
  cases env.sidecar b (stripMetadataSuffix k ++ ".metadata.json") <;> rfl

theorem mem_upsertInventory_self (inv : List InventoryEntryDoc) (addr : String)
    (doc : InventoryEntryDoc) :
    doc ∈ upsertInventory inv addr doc true := by
  unfold upsertInventory
  by_cases h : inv.any (fun e => decide (e._id = addr)) = true
  · rw [if_pos h]
    obtain ⟨e0, he0, hp⟩ := List.any_eq_true.mp h
    rw [decide_eq_true_eq] at hp
    exact List.mem_map.mpr ⟨e0, he0, by rw [if_pos hp]⟩
  · rw [if_neg h]
    simp

theorem isIngested_markAsIngested (env : IngestEnv) (b k e : String) (st : KBState) :
    isIngested b k e (markAsIngested env b k e st) = true := by
  unfold isIngested markAsIngested
  apply List.any_eq_true.mpr
  refine ⟨⟨s3AddressOf b k, e, env.now, .success, none⟩, ?_, by simp⟩
  exact mem_upsertInventory_self _ _ _

theorem isIngested_ingestMetadata (envA : IngestEnv) (b k e bm km : String) (s : KBState) :
    isIngested b k e (ingestMetadata envA bm km s) = isIngested b k e s := by
  unfold isIngested
  rw [ingestMetadata_kbInventory]

theorem ingestObject_ok {env : IngestEnv} {b k e : String} {st : KBState} {cs : List ChunkDoc}
    (hcs : env.loadEmbed b k e = .ok cs) (hne : cs.isEmpty = false)
    (hio : env.insertOutcome = .ok) :
    ingestObject env b k e st
      = .ok { st with kbChunks := staleRemove (s3AddressOf b k) e (st.kbChunks ++ cs) } := by
  simp [ingestObject, hcs, hne, hio]

theorem ingestObject_error_kbInventory {env : IngestEnv} {b k e msg : String}
    {st stp : KBState} (hfail : ingestObject env b k e st = .error (msg, stp)) :
    stp.kbInventory = st.kbInventory := by
  cases hload : env.loadEmbed b k e with
  | error m =>
    simp [ingestObject, hload] at hfail
    rw [← hfail.2]
  | ok cs =>
    by_cases hemp : cs.isEmpty = true
    · simp [ingestObject, hload, hemp] at hfail
      rw [← hfail.2]
    · have hempf : cs.isEmpty = false := by simpa using hemp
      cases hio : env.insertOutcome with
      | ok => simp [ingestObject, hload, hempf, hio] at hfail
      | failPartial n m2 =>
        simp [ingestObject, hload, hempf, hio] at hfail
        rw [← hfail.2]

theorem handleCreatedDocument_idempotent (env env2 : IngestEnv) (b k etg : String)
    (st : KBState) (cs : List ChunkDoc)
    (hpdf : strEndsWith k ".pdf" = true)
    (hcs : env.loadEmbed b k etg = .ok cs)
    (hne : cs.isEmpty = false)
    (hio : env.insertOutcome = .ok) :
    handleCreatedDocument env2 b k etg (handleCreatedDocument env b k etg st)
      = handleCreatedDocument env b k etg st := by
  by_cases hii : isIngested b k etg st = true
  · have h1 : handleCreatedDocument env b k etg st = st := by
      simp [handleCreatedDocument, hpdf, hii]
    rw [h1]
    simp [handleCreatedDocument, hpdf, hii]
  · have hiif : isIngested b k etg st = false := by
      simpa using hii
    have h1 : handleCreatedDocument env b k etg st
        = ingestMetadata env b k (markAsIngested env b k etg
            { st with kbChunks := staleRemove (s3AddressOf b k) etg (st.kbChunks ++ cs) }) := by
      simp [handleCreatedDocument, hpdf, hiif, ingestObject_ok hcs hne hio]
    rw [h1]
    have h2 : isIngested b k etg (ingestMetadata env b k (markAsIngested env b k etg
        { st with kbChunks := staleRemove (s3AddressOf b k) etg (st.kbChunks ++ cs) })) = true := by
      rw [isIngested_ingestMetadata, isIngested_markAsIngested]
    simp [handleCreatedDocument, hpdf, h2]

/-- C4: idempotency of ingestion. For a created `.pdf` document event whose
ingest procedure succeeds (the loader/embedder yield a non-empty chunk batch
and the insert succeeds), handling the same event a second time — under any
environment for the second delivery — leaves the state of the first handling
unchanged: the `isIngested` guard (inventory entry with `status = success` and
the event's eTag) makes the second `handleEvent` skip, with no chunk insert,
no chunk delete and no inventory write. -/
theorem ingestion_idempotent (env env2 : IngestEnv) (r : S3EventRecord) (st : KBState)
    (cs : List ChunkDoc)
    (hrem : strStartsWith r.eventName "ObjectRemoved:" = false)
    (hev : strStartsWith r.eventName "ObjectCreated:" = true)
    (hmeta : strEndsWith (cleanS3Key r.objectKey) ".metadata.json" = false)
    (hpdf : strEndsWith (cleanS3Key r.objectKey) ".pdf" = true)
    (hcs : env.loadEmbed r.bucketName (cleanS3Key r.objectKey) r.eTag = .ok cs)
    (hne : cs.isEmpty = false)
    (hio : env.insertOutcome = .ok) :
    handleEvent env2 r (handleEvent env r st) = handleEvent env r st := by
  have hred : ∀ (e : IngestEnv) (s : KBState),
      handleEvent e r s
        = handleCreatedDocument e r.bucketName (cleanS3Key r.objectKey) r.eTag s := by
    intro e s
    simp [handleEvent, hrem, hev, hmeta]
  simp only [hred]
  exact handleCreatedDocument_idempotent env env2 _ _ _ st cs hpdf hcs hne hio

/-- Witness for C4 at a concrete successful ingestion: handling the same
created event twice equals handling it once. -/
theorem ingestion_idempotent_witness :
    handleEvent
        ⟨fun _ _ _ => .ok [⟨"c1", "t", [], [("source", "s3://b/doc.pdf"), ("eTag", "e1")]⟩],
          fun _ _ => none, .ok, 0⟩
        ⟨"ObjectCreated:Put", "b", "doc.pdf", "e1"⟩
        (handleEvent
          ⟨fun _ _ _ => .ok [⟨"c1", "t", [], [("source", "s3://b/doc.pdf"), ("eTag", "e1")]⟩],
            fun _ _ => none, .ok, 0⟩
          ⟨"ObjectCreated:Put", "b", "doc.pdf", "e1"⟩ ⟨[], []⟩)
      = handleEvent
          ⟨fun _ _ _ => .ok [⟨"c1", "t", [], [("source", "s3://b/doc.pdf"), ("eTag", "e1")]⟩],
            fun _ _ => none, .ok, 0⟩
          ⟨"ObjectCreated:Put", "b", "doc.pdf", "e1"⟩ ⟨[], []⟩ :=
  ingestion_idempotent _ _ _ _
    [⟨"c1", "t", [], [("source", "s3://b/doc.pdf"), ("eTag", "e1")]⟩]
    (by decide) (by decide) (by decide) (by decide) rfl (by decide) rfl

/-- C8: ingestion failure handling. When any step of ingesting a created
document throws — the loader/embedder fail, the batch is empty, or the store
insert rejects (possibly after a partial write) — `handleEvent` returns
normally (it is a total function: the catch swallows the error, so nothing is
rethrown past the pipeline boundary) with the inventory entry for the address
upserted to `status = fail`, the event's eTag, and the error description, and
with the chunk collection exactly as the failed attempt left it — no rollback
of chunks already inserted. -/
theorem ingestion_failure_marks_inventory (env : IngestEnv) (r : S3EventRecord)
    (st stp : KBState) (msg : String)
    (hrem : strStartsWith r.eventName "ObjectRemoved:" = false)
    (hev : strStartsWith r.eventName "ObjectCreated:" = true)
    (hmeta : strEndsWith (cleanS3Key r.objectKey) ".metadata.json" = false)
    (hpdf : strEndsWith (cleanS3Key r.objectKey) ".pdf" = true)
    (hii : isIngested r.bucketName (cleanS3Key r.objectKey) r.eTag st = false)
    (hfail : ingestObject env r.bucketName (cleanS3Key r.objectKey) r.eTag st
      = .error (msg, stp)) :
    handleEvent env r st
      = { kbChunks := stp.kbChunks
          kbInventory :=
            (upsertInventory st.kbInventory (s3AddressOf r.bucketName (cleanS3Key r.objectKey))
              ⟨s3AddressOf r.bucketName (cleanS3Key r.objectKey), r.eTag, env.now, .fail,
                some msg⟩ true) } := by
  have hinv := ingestObject_error_kbInventory hfail
  simp [handleEvent, hrem, hev, hmeta, handleCreatedDocument, hpdf, hii, hfail,
    markAsError, hinv]

/-- Witness for C8 at a concrete loader failure: the event is handled (a state
is returned) with a fail inventory entry and untouched chunks. -/
theorem ingestion_failure_marks_inventory_witness :
    handleEvent ⟨fun _ _ _ => .error "boom", fun _ _ => none, .ok, 0⟩
        ⟨"ObjectCreated:Put", "b", "doc.pdf", "e1"⟩ ⟨[], []⟩
      = { kbChunks := (⟨[], []⟩ : KBState).kbChunks
          kbInventory :=
            (upsertInventory (⟨[], []⟩ : KBState).kbInventory (s3AddressOf "b" (cleanS3Key "doc.pdf"))
              ⟨s3AddressOf "b" (cleanS3Key "doc.pdf"), "e1", 0, .fail, some "boom"⟩ true) } :=
  ingestion_failure_marks_inventory _ _ _ ⟨[], []⟩ "boom"
    (by decide) (by decide) (by decide) (by decide) rfl rfl

/-- C9: no-gap invariant on re-ingestion. `ingestObject` issues the insert of
the new chunks strictly before the stale deletion (first conjunct: the issued
operation list), its success state is the in-order execution of exactly those
two writes (second conjunct), and along that execution — given the address
already has at least one chunk and the new batch is non-empty and tagged with
the address and the new eTag — every observable chunk-collection state holds
at least one chunk for the address (third conjunct). -/
theorem insert_before_delete_no_gap (env : IngestEnv) (bucketName objectKey objectEtag : String)
    (st : KBState) (cs : List ChunkDoc)
    (hcs : env.loadEmbed bucketName objectKey objectEtag = .ok cs)
    (hne : cs.isEmpty = false)
    (hio : env.insertOutcome = .ok)
    (hold : hasChunksFor (s3AddressOf bucketName objectKey) st.kbChunks = true)
    (hnew : ∀ c ∈ cs, c.source = some (s3AddressOf bucketName objectKey)
      ∧ c.eTagOf = some objectEtag) :
    ingestObjectOps cs (s3AddressOf bucketName objectKey) objectEtag
      = [StoreOp.insertChunks cs,
         StoreOp.deleteStale (s3AddressOf bucketName objectKey) objectEtag]
    ∧ ingestObject env bucketName objectKey objectEtag st
      = .ok { st with kbChunks :=
          ((ingestObjectOps cs (s3AddressOf bucketName objectKey) objectEtag).foldl
            applyOp st.kbChunks) }
    ∧ ∀ s ∈ opTrace st.kbChunks (ingestObjectOps cs (s3AddressOf bucketName objectKey) objectEtag),
        hasChunksFor (s3AddressOf bucketName objectKey) s = true := by
  refine ⟨rfl, ?_, ?_⟩
  · rw [ingestObject_ok hcs hne hio]
    simp [ingestObjectOps, applyOp]
  · intro s hs
    simp only [opTrace, ingestObjectOps, applyOp, List.mem_cons, List.mem_singleton,
      List.not_mem_nil, or_false] at hs
    obtain ⟨c, hc⟩ : ∃ c, c ∈ cs := by
      cases cs with
      | nil => simp at hne
      | cons hd tl => exact ⟨hd, by simp⟩
    rcases hs with rfl | rfl | rfl
    · exact hold
    · unfold hasChunksFor at hold ⊢
      simp only [List.any_append, hold, Bool.true_or]
    · apply List.any_eq_true.mpr
      refine ⟨c, ?_, by simp [(hnew c hc).1]⟩
      unfold staleRemove
      apply List.mem_filter.mpr
      refine ⟨List.mem_append.mpr (Or.inr hc), ?_⟩
      simp [(hnew c hc).1, (hnew c hc).2]

/-- Witness for C9 at a concrete re-ingestion: one old chunk with eTag e1, one
new chunk with eTag e2. -/
theorem insert_before_delete_no_gap_witness :
    ingestObject ⟨fun _ _ _ => .ok [⟨"c1", "t1", [], [("source", "s3://b/doc.pdf"), ("eTag", "e2")]⟩],
        fun _ _ => none, .ok, 0⟩ "b" "doc.pdf" "e2"
        ⟨[⟨"c0", "t0", [], [("source", "s3://b/doc.pdf"), ("eTag", "e1")]⟩], []⟩
      = .ok { (⟨[⟨"c0", "t0", [], [("source", "s3://b/doc.pdf"), ("eTag", "e1")]⟩], []⟩ : KBState) with
          kbChunks :=
            ((ingestObjectOps [⟨"c1", "t1", [], [("source", "s3://b/doc.pdf"), ("eTag", "e2")]⟩]
                (s3AddressOf "b" "doc.pdf") "e2").foldl applyOp
              [⟨"c0", "t0", [], [("source", "s3://b/doc.pdf"), ("eTag", "e1")]⟩]) } :=
  (insert_before_delete_no_gap
    ⟨fun _ _ _ => .ok [⟨"c1", "t1", [], [("source", "s3://b/doc.pdf"), ("eTag", "e2")]⟩],
      fun _ _ => none, .ok, 0⟩ "b" "doc.pdf" "e2"
    ⟨[⟨"c0", "t0", [], [("source", "s3://b/doc.pdf"), ("eTag", "e1")]⟩], []⟩
    [⟨"c1", "t1", [], [("source", "s3://b/doc.pdf"), ("eTag", "e2")]⟩]
    rfl (by decide) rfl (by decide) (by decide)).2.1

theorem upsertInventory_idem (inv : List InventoryEntryDoc) (a : String)
    (doc : InventoryEntryDoc) (hdoc : doc._id = a) (u : Bool) :
    upsertInventory (upsertInventory inv a doc u) a doc u = upsertInventory inv a doc u := by
  by_cases hany : inv.any (fun e => decide (e._id = a)) = true
  · have h1 : upsertInventory inv a doc u
        = inv.map (fun e => if e._id = a then doc else e) := by
      unfold upsertInventory
      rw [if_pos hany]
    have hany2 : (inv.map (fun e => if e._id = a then doc else e)).any
        (fun e => decide (e._id = a)) = true := by
      obtain ⟨e0, he0, hp⟩ := List.any_eq_true.mp hany
      rw [decide_eq_true_eq] at hp
      exact List.any_eq_true.mpr
        ⟨doc, List.mem_map.mpr ⟨e0, he0, by rw [if_pos hp]⟩, by simp [hdoc]⟩
    rw [h1]
    unfold upsertInventory
    rw [if_pos hany2, List.map_map]
    apply List.map_congr_left
    intro e _
    by_cases he1 : e._id = a
    · simp [Function.comp, he1, hdoc]
    · simp [Function.comp, he1]
  · have hall : ∀ e ∈ inv, ¬(e._id = a) := by
      intro e he hne
      exact hany (List.any_eq_true.mpr ⟨e, he, decide_eq_true hne⟩)
    have h1 : upsertInventory inv a doc u = if u then inv ++ [doc] else inv := by
      unfold upsertInventory
      rw [if_neg hany]
    rw [h1]
    cases u with
    | false =>
      simp only [Bool.false_eq_true, if_false]
      unfold upsertInventory
      rw [if_neg hany]
      simp
    | true =>
      simp only [if_true]
      unfold upsertInventory
      have hany3 : (inv ++ [doc]).any (fun e => decide (e._id = a)) = true := by
        simp [List.any_append, hdoc]
      rw [if_pos hany3, List.map_append]
      have hmap : inv.map (fun e => if e._id = a then doc else e) = inv := by
        have : inv.map (fun e => if e._id = a then doc else e) = inv.map id := by
          apply List.map_congr_left
          intro e he
          rw [if_neg (hall e he)]
          rfl
        rw [this, List.map_id]
      rw [hmap]
      simp [hdoc]

/-- C5 counterexample: a removed event for an address with no inventory entry
deletes the address's chunks but creates no inventory entry — `markAsRemoved`
replaces with `upsert: false`, so no `status = removed` entry exists
afterwards, refuting the claim that the entry is created when none exists. -/
theorem removal_no_inventory_creation_counterexample :
    handleEvent ⟨fun _ _ _ => .error "unused", fun _ _ => none, .ok, 0⟩
        ⟨"ObjectRemoved:Delete", "b", "doc.pdf", "e1"⟩
        ⟨[⟨"c1", "t", [], [("source", "s3://b/doc.pdf"), ("eTag", "e1")]⟩], []⟩
      = ⟨[], []⟩
    ∧ (handleEvent ⟨fun _ _ _ => .error "unused", fun _ _ => none, .ok, 0⟩
        ⟨"ObjectRemoved:Delete", "b", "doc.pdf", "e1"⟩
        ⟨[⟨"c1", "t", [], [("source", "s3://b/doc.pdf"), ("eTag", "e1")]⟩], []⟩).kbInventory
      = [] :=
  ⟨by decide, by decide⟩

/-- C5 amended: for every removed event, regardless of prior state,
`handleEvent` deletes all chunks whose `metadata.source` equals the address
and replaces an existing inventory entry for the address with
`status = removed` and sentinel eTag `'0'`; if no entry exists, none is
created (`upsert: false`). Repeated removes produce no change beyond the
replace: with the same timestamp the second remove is an exact no-op. -/
theorem removal_deletes_chunks_replaces_existing_inventory (env env2 : IngestEnv)
    (r : S3EventRecord) (st : KBState)
    (hrem : strStartsWith r.eventName "ObjectRemoved:" = true) :
    (handleEvent env r st).kbChunks
      = st.kbChunks.filter (fun c =>
          !(decide (c.source = some (s3AddressOf r.bucketName (cleanS3Key r.objectKey)))))
    ∧ (handleEvent env r st).kbInventory
      = upsertInventory st.kbInventory (s3AddressOf r.bucketName (cleanS3Key r.objectKey))
          ⟨s3AddressOf r.bucketName (cleanS3Key r.objectKey), "0", env.now, .removed, none⟩ false
    ∧ (env2.now = env.now →
        handleEvent env2 r (handleEvent env r st) = handleEvent env r st) := by
  have hred : ∀ (e : IngestEnv) (s : KBState),
      handleEvent e r s
        = markAsRemoved e r.bucketName (cleanS3Key r.objectKey)
            (removeObject r.bucketName (cleanS3Key r.objectKey) s) := by
    intro e s
    simp [handleEvent, hrem]
  refine ⟨by rw [hred]; rfl, by rw [hred]; rfl, ?_⟩
  intro hnow
  simp only [hred, markAsRemoved, removeObject, hnow]
  congr 1
  · rw [List.filter_filter]
    apply List.filter_congr
    intro c _
    simp
  · exact upsertInventory_idem st.kbInventory (s3AddressOf r.bucketName (cleanS3Key r.objectKey))
      ⟨s3AddressOf r.bucketName (cleanS3Key r.objectKey), "0", env.now, .removed, none⟩ rfl false

/-- Witness for C5's amended theorem: a second remove with the same timestamp
is an exact no-op on the state left by the first. -/
theorem removal_deletes_chunks_replaces_existing_inventory_witness :
    handleEvent ⟨fun _ _ _ => .error "unused", fun _ _ => none, .ok, 0⟩
        ⟨"ObjectRemoved:Delete", "b", "x.pdf", "e"⟩
        (handleEvent ⟨fun _ _ _ => .error "unused", fun _ _ => none, .ok, 0⟩
          ⟨"ObjectRemoved:Delete", "b", "x.pdf", "e"⟩
          ⟨[], [⟨"s3://b/x.pdf", "e1", 5, .success, none⟩]⟩)
      = handleEvent ⟨fun _ _ _ => .error "unused", fun _ _ => none, .ok, 0⟩
          ⟨"ObjectRemoved:Delete", "b", "x.pdf", "e"⟩
          ⟨[], [⟨"s3://b/x.pdf", "e1", 5, .success, none⟩]⟩ :=
  (removal_deletes_chunks_replaces_existing_inventory
    ⟨fun _ _ _ => .error "unused", fun _ _ => none, .ok, 0⟩
    ⟨fun _ _ _ => .error "unused", fun _ _ => none, .ok, 0⟩
    ⟨"ObjectRemoved:Delete", "b", "x.pdf", "e"⟩
    ⟨[], [⟨"s3://b/x.pdf", "e1", 5, .success, none⟩]⟩ (by decide)).2.2 rfl

/-- C2 counterexample: a sidecar whose `metadataAttributes` map itself binds
`source` overwrites the chunk's prior `metadata.source` — the `$addFields`
merge overrides same-named keys — refuting the claim that the prior
`metadata.source` entry is always preserved. -/
theorem metadata_merge_source_clobbered_counterexample :
    ((⟨[⟨"c1", "t", [], [("source", "s3://b/doc.pdf"), ("eTag", "e1")]⟩], []⟩ : KBState)).kbChunks.map
        ChunkDoc.source
      = [some "s3://b/doc.pdf"]
    ∧ ((handleEvent
        ⟨fun _ _ _ => .error "unused", fun _ _ => some [("source", "evil")], .ok, 0⟩
        ⟨"ObjectCreated:Put", "b", "doc.pdf.metadata.json", "e9"⟩
        ⟨[⟨"c1", "t", [], [("source", "s3://b/doc.pdf"), ("eTag", "e1")]⟩], []⟩).kbChunks.map
          ChunkDoc.source)
      = [some "evil"]
    ∧ (some "evil" : Option String) ≠ some "s3://b/doc.pdf" :=
  ⟨by decide, by decide, by decide⟩

/-- C2 amended: for every created event for a metadata-sidecar key whose
sidecar carries a non-empty `metadataAttributes` map `m`, `handleEvent`
leaves the inventory untouched and rewrites exactly the chunks whose
`metadata.source` equals the target address by merging `m` into their
`metadata` at leaf level; under that merge a key not bound by `m` — in
particular `source` and `eTag` when the sidecar does not bind them — keeps its
prior value, and a key bound by `m` takes the sidecar's value. -/
theorem metadata_sidecar_merge (env : IngestEnv) (r : S3EventRecord) (st : KBState)
    (m : AttrMap)
    (hrem : strStartsWith r.eventName "ObjectRemoved:" = false)
    (hev : strStartsWith r.eventName "ObjectCreated:" = true)
    (hmeta : strEndsWith (cleanS3Key r.objectKey) ".metadata.json" = true)
    (hsc : env.sidecar r.bucketName
      (stripMetadataSuffix (cleanS3Key r.objectKey) ++ ".metadata.json") = some m)
    (hm : m.isEmpty = false) :
    (handleEvent env r st).kbInventory = st.kbInventory
    ∧ (handleEvent env r st).kbChunks
      = st.kbChunks.map (fun c =>
          if c.source
              = some (s3AddressOf r.bucketName (stripMetadataSuffix (cleanS3Key r.objectKey)))
          then { c with metadata := addFieldsDoc c.metadata m } else c)
    ∧ (∀ old : AttrMap, ∀ key, m.lookup key = none →
        (addFieldsDoc old m).lookup key = old.lookup key)
    ∧ (∀ old : AttrMap, ∀ key v, m.lookup key = some v →
        (addFieldsDoc old m).lookup key = some v) := by
  have hred : handleEvent env r st
      = ingestMetadata env r.bucketName (cleanS3Key r.objectKey) st := by
    simp [handleEvent, hrem, hev, hmeta]
  refine ⟨?_, ?_, ?_, ?_⟩
  · rw [hred, ingestMetadata_kbInventory]
  · rw [hred]
    simp only [ingestMetadata, hsc]
  · intro old key hk
    simp only [addFieldsDoc, hm, Bool.false_eq_true, if_false]
    exact lookup_overrideAppend_of_none hk old
  · intro old key v hk
    simp only [addFieldsDoc, hm, Bool.false_eq_true, if_false]
    exact lookup_overrideAppend_of_some hk old

/-- Witness for C2's amended theorem at a concrete sidecar delivery: the
matching chunk gains the sidecar attribute, and its prior `source` and `eTag`
survive the merge. -/
theorem metadata_sidecar_merge_witness :
    (handleEvent
        ⟨fun _ _ _ => .error "unused", fun _ _ => some [("author", "Jane")], .ok, 0⟩
        ⟨"ObjectCreated:Put", "b", "doc.pdf.metadata.json", "e9"⟩
        ⟨[⟨"c1", "t", [], [("source", "s3://b/doc.pdf"), ("eTag", "e1")]⟩], []⟩).kbInventory
      = (⟨[⟨"c1", "t", [], [("source", "s3://b/doc.pdf"), ("eTag", "e1")]⟩], []⟩ : KBState).kbInventory
    ∧ (addFieldsDoc [("source", "s3://b/doc.pdf"), ("eTag", "e1")]
        [("author", "Jane")]).lookup "source" = some "s3://b/doc.pdf" := by
  have h := metadata_sidecar_merge
    ⟨fun _ _ _ => .error "unused", fun _ _ => some [("author", "Jane")], .ok, 0⟩
    ⟨"ObjectCreated:Put", "b", "doc.pdf.metadata.json", "e9"⟩
    ⟨[⟨"c1", "t", [], [("source", "s3://b/doc.pdf"), ("eTag", "e1")]⟩], []⟩
    [("author", "Jane")]
    (by decide) (by decide) (by decide) rfl (by decide)
  exact ⟨h.1, h.2.2.1 [("source", "s3://b/doc.pdf"), ("eTag", "e1")] "source" (by decide)⟩

end MdbBedrock
